import Mathlib

/-!
Verification of the macOS-RoutingDNS repository against its specification.

The repository has two Python programs:
  * `mrvdns.py` — a reverse-DNS lookup tool (enumerate IPv4 addresses from a
    subnet prefix, a CIDR block, or a file; run one PTR lookup per address
    through `nslookup`; aggregate the results to console and an optional file);
  * `mroute.py` — a macOS network configuration manager whose `run_command`
    wraps external OS commands.

This file shallowly embeds the relevant Python functions.  Python strings are
modelled as `List Char`, machine integers as `Nat`/`Int`, the external world
(the `nslookup` subprocess, command exit codes) as explicit inputs, and
exception-raising code as `Option`/outcome types.  The embedded definitions
mirror the CPython `ipaddress` module behaviour (Python ≥ 3.9) that the source
relies on: dotted-quad parsing with the leading-zero restriction, prefix
lengths given as digit strings or as dotted netmask/hostmask forms,
`strict=False` masking, and `hosts()` including both addresses of a /31 and
the single address of a /32.
-/

/-- Python strings are modelled as lists of characters. -/
abbrev Str := List Char

/-- The characters stripped by Python's `str.strip()` (ASCII whitespace). -/
def pyIsSpace (c : Char) : Bool :=
  c = ' ' || c = '\t' || c = '\n' || c = '\r' ||
    c = Char.ofNat 11 || c = Char.ofNat 12

/-- Python `str.strip()`: remove leading and trailing whitespace. -/
def pyStrip (cs : Str) : Str :=
  ((cs.dropWhile pyIsSpace).reverse.dropWhile pyIsSpace).reverse

/-- The decimal digit character for `d` (`d ≥ 9` maps to `'9'`; callers only
use `d < 10`). -/
def digitChar (d : Nat) : Char :=
  match d with
  | 0 => '0' | 1 => '1' | 2 => '2' | 3 => '3' | 4 => '4'
  | 5 => '5' | 6 => '6' | 7 => '7' | 8 => '8' | _ => '9'

/-- Numeric value of a string of decimal digits (Python `int(s, 10)`). -/
def digitsVal (cs : Str) : Nat :=
  cs.foldl (fun a c => a * 10 + (c.toNat - 48)) 0

/-- Decimal rendering, most significant digit first; `fuel` bounds the
recursion (any `fuel ≥ n` yields the digits of `n`). -/
def toDecAux : Nat → Nat → Str
  | 0, _ => []
  | _ + 1, 0 => []
  | fuel + 1, n + 1 => toDecAux fuel ((n + 1) / 10) ++ [digitChar ((n + 1) % 10)]

/-- Decimal rendering of a natural number (Python `str(n)`). -/
def toDec (n : Nat) : Str :=
  if n = 0 then ['0'] else toDecAux n n

/-- Python `str.split(sep)` for a single-character separator. -/
def splitOnChar (sep : Char) : Str → List Str
  | [] => [[]]
  | c :: cs =>
    match splitOnChar sep cs with
    | [] => [[]]
    | t :: ts => if c = sep then [] :: t :: ts else (c :: t) :: ts

/-- Join pieces with a single-character separator (inverse of `splitOnChar`). -/
def joinWith (sep : Char) : List Str → Str
  | [] => []
  | [x] => x
  | x :: y :: rest => x ++ sep :: joinWith sep (y :: rest)

/-- Python `sub in s`: substring containment. -/
def containsSub (pat : Str) : Str → Bool
  | [] => pat.isEmpty
  | c :: rest => pat.isPrefixOf (c :: rest) || containsSub pat rest

/-- Worker for `pySplit`; `fuel` bounds the recursion (`fuel = cs.length`
suffices for a non-empty separator). -/
def pySplitGo (sep : Str) : Nat → Str → Str → List Str
  | _, [], acc => [acc.reverse]
  | 0, cs, acc => [acc.reverse ++ cs]
  | fuel + 1, c :: rest, acc =>
    if sep.isPrefixOf (c :: rest) then
      acc.reverse :: pySplitGo sep fuel ((c :: rest).drop sep.length) []
    else
      pySplitGo sep fuel rest (c :: acc)

/-- Python `str.split(sep)` for a non-empty separator string. -/
def pySplit (sep cs : Str) : List Str :=
  pySplitGo sep cs.length cs []

/-- Is `c` one of the line-break characters recognised by Python
`str.splitlines()`? -/
def pyIsLineBreak (c : Char) : Bool :=
  c = '\n' || c = '\r' || c = Char.ofNat 11 || c = Char.ofNat 12 ||
    c = Char.ofNat 28 || c = Char.ofNat 29 || c = Char.ofNat 30 ||
    c = Char.ofNat 133 || c = Char.ofNat 8232 || c = Char.ofNat 8233

/-- Split off the first line: returns the line and the remainder after its
terminator (`"\r\n"` counts as a single terminator). -/
def takeLine : Str → Str × Str
  | [] => ([], [])
  | c :: cs =>
    if c = '\r' then
      match cs with
      | '\n' :: cs2 => ([], cs2)
      | _ => ([], cs)
    else if pyIsLineBreak c then
      ([], cs)
    else
      let (l, r) := takeLine cs
      (c :: l, r)

/-- Worker for `pySplitlines`; `fuel` bounds the recursion
(`fuel = cs.length` suffices since `takeLine` always consumes a character). -/
def pySplitlinesGo : Nat → Str → List Str
  | _, [] => []
  | 0, cs => [cs]
  | fuel + 1, c :: cs =>
    let (l, r) := takeLine (c :: cs)
    l :: pySplitlinesGo fuel r

/-- Python `str.splitlines()`. -/
def pySplitlines (cs : Str) : List Str :=
  pySplitlinesGo cs.length cs

/-!
## The `ipaddress` library model

`mrvdns.py` delegates all address arithmetic to Python's `ipaddress` module.
The definitions below embed the parts it uses: `IPv4Address(s)` parsing,
`IPv4Network(s, strict=False)` construction (address part, plus a prefix given
either as a digit string or as a dotted netmask/hostmask), and
`IPv4Network.hosts()`.  Addresses are 32-bit values modelled as `Nat`.
-/

/-- CPython `ipaddress._parse_octet`: a non-empty all-digit string, at most 3
characters, no leading zero (except `"0"` itself), value at most 255. -/
def parseOctet (cs : Str) : Option Nat :=
  if cs = [] then none
  else if ¬ cs.all Char.isDigit then none
  else if cs.length > 3 then none
  else if cs ≠ ['0'] ∧ cs.headD ' ' = '0' then none
  else if digitsVal cs > 255 then none
  else some (digitsVal cs)

/-- CPython `ipaddress._ip_int_from_string`: exactly four dot-separated
octets, combined big-endian. -/
def parseIPv4 (cs : Str) : Option Nat :=
  match splitOnChar '.' cs with
  | [p1, p2, p3, p4] =>
    match parseOctet p1, parseOctet p2, parseOctet p3, parseOctet p4 with
    | some a, some b, some c, some d => some (((a * 256 + b) * 256 + c) * 256 + d)
    | _, _, _, _ => none
  | _ => none

/-- CPython `ipaddress._prefix_from_prefix_string`: an all-digit string whose
value is at most 32 (leading zeros are allowed here). -/
def parsePrefixLen (cs : Str) : Option Nat :=
  if cs ≠ [] ∧ cs.all Char.isDigit then
    if digitsVal cs ≤ 32 then some (digitsVal cs) else none
  else none

/-- CPython `ipaddress._prefix_from_ip_int`: recognise a 32-bit value of the
form `p` one-bits followed by `32 - p` zero-bits and return `p`.  (The CPython
code counts trailing zeros and checks the leading bits are all ones; searching
for the unique `p ≤ 32` with `m = 2^32 - 2^(32-p)` decides the same shape.) -/
def prefixFromIpInt (m : Nat) : Option Nat :=
  (List.range 33).find? (fun p => m == 2 ^ 32 - 2 ^ (32 - p))

/-- CPython `ipaddress._make_netmask` on a string: try a prefix-length digit
string, then a dotted-quad netmask, then a dotted-quad hostmask (the bitwise
complement within 32 bits). -/
def parseNetmaskStr (cs : Str) : Option Nat :=
  match parsePrefixLen cs with
  | some p => some p
  | none =>
    match parseIPv4 cs with
    | none => none
    | some m =>
      match prefixFromIpInt m with
      | some p => some p
      | none => prefixFromIpInt (2 ^ 32 - 1 - m)

/-- CPython `IPv4Network(s, strict=False)` on a string: split on `'/'` (at
most one allowed; absent means `/32`), parse the address and the mask.
Returns the raw address and the prefix length; with `strict=False` host bits
are simply masked off later, never an error. -/
def parseNetwork (cs : Str) : Option (Nat × Nat) :=
  match splitOnChar '/' cs with
  | [a] => (parseIPv4 a).map (fun n => (n, 32))
  | [a, m] =>
    match parseIPv4 a, parseNetmaskStr m with
    | some n, some p => some (n, p)
    | _, _ => none
  | _ => none

/-- Network address: the given address with its `32 - p` host bits cleared. -/
def networkOf (a p : Nat) : Nat :=
  a / 2 ^ (32 - p) * 2 ^ (32 - p)

/-- Broadcast address: the last address of the block. -/
def broadcastOf (a p : Nat) : Nat :=
  networkOf a p + (2 ^ (32 - p) - 1)

/-- CPython `IPv4Network.hosts()` as 32-bit values: all addresses strictly
between network and broadcast; a /31 yields both of its addresses and a /32
yields its single address (Python ≥ 3.8 behaviour). -/
def ipHosts (a p : Nat) : List Nat :=
  if p = 32 then [networkOf a p]
  else if p = 31 then [networkOf a p, networkOf a p + 1]
  else List.range' (networkOf a p + 1) (2 ^ (32 - p) - 2)

/-- CPython `str(IPv4Address(n))`: dotted-quad decimal rendering. -/
def ipToString (n : Nat) : Str :=
  joinWith '.'
    [toDec (n / 2 ^ 24 % 256), toDec (n / 2 ^ 16 % 256),
     toDec (n / 2 ^ 8 % 256), toDec (n % 256)]

/-- Exactly three dot-separated valid octets (a "3-octet subnet prefix" such
as `"10.10.10"`), returned as the octet values. -/
def parse3Octet (cs : Str) : Option (Nat × Nat × Nat) :=
  match splitOnChar '.' cs with
  | [p1, p2, p3] =>
    match parseOctet p1, parseOctet p2, parseOctet p3 with
    | some a, some b, some c => some (a, b, c)
    | _, _, _ => none
  | _ => none

/-!
## `mrvdns.py`: the reverse-DNS resolution pipeline

The outcome of the external `nslookup` subprocess call is an explicit input:
it either completed within the timeout with some stdout text, expired the
timeout (`subprocess.TimeoutExpired`), or raised some other exception.
-/

/-- Outcome of the `subprocess.run(["nslookup", ip, dns], ..., timeout=5)`
call inside `reverse_dns_lookup`. -/
inductive SubprocResult where
  | completed (stdout : Str)
  | timedOut
  | raised (msg : Str)
deriving DecidableEq

/-- The literal `"name ="` marker scanned for in the resolver's output. -/
def nameMarker : Str := "name =".toList

/-- Message for a completed query with no PTR record line. -/
def noPtrMsg : Str := "No PTR Record Found".toList

/-- `mrvdns.reverse_dns_lookup(ip, dns_server)`: run `nslookup`, return the
first line's PTR name if a `"name ="` line exists, otherwise the no-record /
timeout / error string.  Every outcome is rendered as `ip ++ "\t" ++ text`;
nothing ever escapes to the caller. -/
def reverse_dns_lookup (ip dns : Str) (nslookup : Str → Str → SubprocResult) : Str :=
  match nslookup ip dns with
  | .completed out =>
    match (pySplitlines out).find? (fun line => containsSub nameMarker line) with
    | some line => ip ++ '\t' :: pyStrip ((pySplit nameMarker line).getLastD [])
    | none => ip ++ '\t' :: noPtrMsg
  | .timedOut => ip ++ '\t' :: "Timeout".toList
  | .raised msg => ip ++ '\t' :: ("Error: ".toList ++ msg)

/-- `mrvdns.generate_sequential_ips(subnet)`: the host addresses of
`IPv4Network(f"{subnet}.0/24", strict=False)` as strings; `none` models the
`ValueError` raised on an unparseable network. -/
def generate_sequential_ips (subnet : Str) : Option (List Str) :=
  (parseNetwork (subnet ++ ".0/24".toList)).map
    (fun n => (ipHosts n.1 n.2).map ipToString)

/-- `mrvdns.expand_cidr_range(cidr_range)`: the host addresses of
`IPv4Network(cidr_range, strict=False)` as strings; `none` models the
`ValueError` raised on an unparseable network. -/
def expand_cidr_range (cidr_range : Str) : Option (List Str) :=
  (parseNetwork cidr_range).map
    (fun n => (ipHosts n.1 n.2).map ipToString)

/-- `mrvdns.read_ips_and_ranges_from_file`: the file's lines are processed in
order into one accumulated list; blank (after `strip`) lines are skipped,
lines containing `'/'` are expanded as CIDR blocks, other lines are validated
as single addresses and kept verbatim; a `ValueError` in either branch skips
the line (after printing a message). -/
def read_ips_and_ranges_from_file (lines : List Str) : List Str :=
  lines.foldl
    (fun all_ips line =>
      let entry := pyStrip line
      if entry = [] then all_ips
      else if entry.contains '/' then
        match expand_cidr_range entry with
        | some ips => all_ips ++ ips
        | none => all_ips
      else
        match parseIPv4 entry with
        | some _ => all_ips ++ [entry]
        | none => all_ips)
    []

/-- The contribution of a single file line (the normal form of one loop
iteration of `read_ips_and_ranges_from_file`). -/
def lineContribution (line : Str) : List Str :=
  let entry := pyStrip line
  if entry = [] then []
  else if entry.contains '/' then
    match expand_cidr_range entry with
    | some ips => ips
    | none => []
  else
    match parseIPv4 entry with
    | some _ => [entry]
    | none => []

/-- The command-line arguments of `mrvdns.main` that matter to the model.
A present `-f` argument is modelled by the lines of the named file. -/
structure MainArgs where
  subnet : Option Str
  cidr : Option Str
  file : Option (List Str)
  dns : Str
  output : Option Str
  threads : Nat

/-- The IP-collection phase of `mrvdns.main` (lines 69–78): concatenate the
subnet, CIDR and file contributions in that order.  An unparseable `-s` or
`-r` argument raises an uncaught `ValueError` (modelled as `Except.error`);
the file reader never raises. -/
def collect_ip_list (args : MainArgs) : Except Str (List Str) := do
  let l1 ←
    match args.subnet with
    | some s =>
      match generate_sequential_ips s with
      | some l => pure l
      | none => throw ("ValueError in generate_sequential_ips".toList)
    | none => pure []
  let l2 ←
    match args.cidr with
    | some r =>
      match expand_cidr_range r with
      | some l => pure l
      | none => throw ("ValueError in expand_cidr_range".toList)
    | none => pure []
  let l3 :=
    match args.file with
    | some lines => read_ips_and_ranges_from_file lines
    | none => []
  pure (l1 ++ l2 ++ l3)

/-- The header line written first to the output file. -/
def headerLine : Str := "IP Address\tReverse DNS Name".toList

/-- The full output-file content: the header line, a newline, then the result
strings joined by newlines (`file.write(header + "\n")` followed by
`file.write("\n".join(results))`). -/
def outputContent (results : List Str) : Str :=
  headerLine ++ '\n' :: joinWith '\n' results

/-- The lines of a text buffer, split at `'\n'`. -/
def fileLines (cs : Str) : List Str :=
  splitOnChar '\n' cs

/-- Observable outcome of a run of `mrvdns.main`. -/
inductive MainOutcome where
  | crashed (err : Str)
  | usage
  | completed (results : List Str) (fileContent : Option Str)
deriving DecidableEq

/-- `mrvdns.main`: collect the addresses; on an empty list print the usage
message and return; otherwise run one lookup per address (submission order)
and, once all lookups have completed, optionally write the output file. -/
def mrvdns_main (args : MainArgs) (nslookup : Str → Str → SubprocResult) :
    MainOutcome :=
  match collect_ip_list args with
  | .error e => .crashed e
  | .ok [] => .usage
  | .ok ips =>
    let results := ips.map (fun ip => reverse_dns_lookup ip args.dns nslookup)
    .completed results (args.output.map (fun _ => outputContent results))

/-- Process exit status of a run: an uncaught exception exits non-zero; both
the usage path (a plain `return` from `main`) and normal completion exit 0. -/
def exitStatus : MainOutcome → Nat
  | .crashed _ => 1
  | .usage => 0
  | .completed _ _ => 0

/-- Number of lookups performed during a run. -/
def lookupCount : MainOutcome → Nat
  | .completed results _ => results.length
  | _ => 0

/-- Output-file content written during a run, if any. -/
def writtenFile : MainOutcome → Option Str
  | .completed _ f => f
  | _ => none

/-!
## `mroute.py`: external command invocation
-/

/-- Result of `subprocess.run(command, check=True, ...)` in `mroute.py`:
the invoked command's exit code, captured stdout and captured stderr. -/
structure CmdResult where
  returncode : Int
  stdout : Str
  stderr : Str

/-- Observable outcome of `mroute.run_command`. -/
inductive RunCommandOutcome where
  | ok (out : Str)
  | fatalExit (printed : Str) (code : Nat)
deriving DecidableEq

/-- `mroute.run_command(command)`: with `check=True`, a non-zero exit of the
invoked command raises `CalledProcessError`, which is caught, the command's
stripped stderr is printed, and the process exits with status 1; on success
the stripped stdout is returned. -/
def run_command (r : CmdResult) : RunCommandOutcome :=
  if r.returncode = 0 then .ok (pyStrip r.stdout)
  else .fatalExit (pyStrip r.stderr) 1

/-!
## The bounded worker pool

`mrvdns.main` runs the lookups through
`ThreadPoolExecutor(max_workers=args.threads)`.  The executor itself is
standard-library code, not part of this repository; its documented scheduling
discipline — a submitted job may start only while fewer than `max_workers`
jobs are running — is modelled as a transition system over the per-job
states. -/

/-- State of one submitted lookup job. -/
inductive JobState where
  | pending
  | running
  | done
deriving DecidableEq, BEq

/-- Number of jobs currently executing. -/
def runningCount (s : List JobState) : Nat :=
  s.countP (fun j => j == JobState.running)

/-- One scheduling step of a pool with `K = max_workers`: a pending job may
start only while fewer than `K` jobs are running; a running job may finish. -/
inductive PoolStep (K : Nat) : List JobState → List JobState → Prop where
  | start (s : List JobState) (i : Nat)
      (hp : s.getD i .done = .pending) (hK : runningCount s < K) :
      PoolStep K s (s.set i .running)
  | finish (s : List JobState) (i : Nat)
      (hr : s.getD i .done = .running) :
      PoolStep K s (s.set i .done)

/-- Pool states reachable from the initial state in which all `n` submitted
jobs are pending. -/
def PoolReachable (K n : Nat) (s : List JobState) : Prop :=
  Relation.ReflTransGen (PoolStep K) (List.replicate n .pending) s

/-!
## Specification-side definitions (for refinement statements)
-/

/-- The spec's Lookup Result outcome taxonomy (section 4.2). -/
inductive LookupOutcome where
  | resolvedName (name : Str)
  | noRecord
  | timedOut
  | errorDesc (msg : Str)
deriving DecidableEq

/-- The spec's outcome classification, in its priority order: a PTR name
present in the reply yields `Resolved(name)` (the text after the last
`"name ="` of the first such line, stripped); a completed query with no PTR
record line yields `NoRecord`; exceeding the timeout yields `Timeout`; any
other failure yields `Error(description)`. -/
def spec_lookup_outcome : SubprocResult → LookupOutcome
  | .completed out =>
    match (pySplitlines out).find? (fun line => containsSub nameMarker line) with
    | some line => .resolvedName (pyStrip ((pySplit nameMarker line).getLastD []))
    | none => .noRecord
  | .timedOut => .timedOut
  | .raised msg => .errorDesc msg

/-- Render a spec outcome as the tool's tab-separated result line. -/
def renderOutcome (ip : Str) : LookupOutcome → Str
  | .resolvedName name => ip ++ '\t' :: name
  | .noRecord => ip ++ '\t' :: noPtrMsg
  | .timedOut => ip ++ '\t' :: "Timeout".toList
  | .errorDesc msg => ip ++ '\t' :: ("Error: ".toList ++ msg)

/-- The spec's `usable_host_count`: the block's host count minus network and
broadcast (section 8, claim C4). -/
def usableHostCount (p : Nat) : Nat :=
  2 ^ (32 - p) - 2

/-!
## Helper lemmas: splitting and joining
-/

theorem splitOnChar_ne_nil (sep : Char) (cs : Str) : splitOnChar sep cs ≠ [] := by
  induction cs with
  | nil => simp [splitOnChar]
  | cons c cs ih =>
    simp only [splitOnChar]
    cases h : splitOnChar sep cs with
    | nil => exact absurd h ih
    | cons t ts => by_cases hc : c = sep <;> simp [hc]

theorem joinWith_splitOnChar (sep : Char) (cs : Str) :
    joinWith sep (splitOnChar sep cs) = cs := by
  induction cs with
  | nil => simp [splitOnChar, joinWith]
  | cons c cs ih =>
    simp only [splitOnChar]
    match h : splitOnChar sep cs with
    | [] => exact absurd h (splitOnChar_ne_nil sep cs)
    | t :: ts =>
      rw [h] at ih
      by_cases hc : c = sep
      · subst hc
        simp only [if_pos rfl]
        match ts, ih with
        | ts, ih => simpa [joinWith] using ih
      · simp only [if_neg hc]
        match ts, ih with
        | [], ih => simpa [joinWith] using congrArg (c :: ·) ih
        | t' :: ts', ih => simpa [joinWith] using congrArg (c :: ·) ih

theorem splitOnChar_no_sep (sep : Char) (x : Str) (hx : ∀ c ∈ x, c ≠ sep) :
    splitOnChar sep x = [x] := by
  induction x with
  | nil => simp [splitOnChar]
  | cons c cs ih =>
    have hc : c ≠ sep := hx c (by simp)
    have ih' := ih (fun d hd => hx d (by simp [hd]))
    simp only [splitOnChar, ih', if_neg hc]

theorem splitOnChar_append_sep (sep : Char) (x rest : Str)
    (hx : ∀ c ∈ x, c ≠ sep) :
    splitOnChar sep (x ++ sep :: rest) = x :: splitOnChar sep rest := by
  induction x with
  | nil =>
    simp only [List.nil_append, splitOnChar]
    match h : splitOnChar sep rest with
    | [] => exact absurd h (splitOnChar_ne_nil sep rest)
    | t :: ts => simp
  | cons c cs ih =>
    have hc : c ≠ sep := hx c (by simp)
    have ih' := ih (fun d hd => hx d (by simp [hd]))
    simp only [List.cons_append, splitOnChar, List.append_eq, ih', if_neg hc]

/-!
## Helper lemmas: decimal rendering
-/

theorem digitsVal_append_digit (xs : Str) (c : Char) :
    digitsVal (xs ++ [c]) = digitsVal xs * 10 + (c.toNat - 48) := by
  simp [digitsVal, List.foldl_append]

theorem digitChar_toNat {d : Nat} (hd : d < 10) : (digitChar d).toNat - 48 = d := by
  interval_cases d <;> decide

theorem digitChar_isDigit (d : Nat) : (digitChar d).isDigit = true := by
  unfold digitChar
  split <;> decide

theorem digitsVal_toDecAux (fuel n : Nat) (h : n ≤ fuel) :
    digitsVal (toDecAux fuel n) = n := by
  induction fuel generalizing n with
  | zero =>
    interval_cases n
    simp [toDecAux, digitsVal]
  | succ f ih =>
    match n with
    | 0 => simp [toDecAux, digitsVal]
    | m + 1 =>
      have hdiv : (m + 1) / 10 ≤ f := by
        have : (m + 1) / 10 < m + 1 := Nat.div_lt_self (Nat.succ_pos m) (by omega)
        omega
      rw [toDecAux, digitsVal_append_digit, ih _ hdiv,
        digitChar_toNat (Nat.mod_lt _ (by omega))]
      omega

theorem digitsVal_toDec (n : Nat) : digitsVal (toDec n) = n := by
  unfold toDec
  split
  · simp_all [digitsVal]
  · exact digitsVal_toDecAux n n le_rfl

theorem toDec_inj {m n : Nat} (h : toDec m = toDec n) : m = n := by
  have := congrArg digitsVal h
  rwa [digitsVal_toDec, digitsVal_toDec] at this

theorem toDecAux_digits (fuel n : Nat) : ∀ c ∈ toDecAux fuel n, c.isDigit = true := by
  induction fuel generalizing n with
  | zero => simp [toDecAux]
  | succ f ih =>
    match n with
    | 0 => simp [toDecAux]
    | m + 1 =>
      intro c hc
      rw [toDecAux] at hc
      rcases List.mem_append.mp hc with h1 | h2
      · exact ih _ c h1
      · simp only [List.mem_singleton] at h2
        subst h2
        exact digitChar_isDigit _

theorem toDec_digits (n : Nat) : ∀ c ∈ toDec n, c.isDigit = true := by
  unfold toDec
  split
  · simp
  · exact toDecAux_digits n n

theorem isDigit_ne_dot {c : Char} (h : c.isDigit = true) : c ≠ '.' := by
  rintro rfl; simp at h

theorem isDigit_ne_slash {c : Char} (h : c.isDigit = true) : c ≠ '/' := by
  rintro rfl; simp at h

theorem isDigit_ne_newline {c : Char} (h : c.isDigit = true) : c ≠ '\n' := by
  rintro rfl; simp at h

theorem toDec_ne_dot (n : Nat) : ∀ c ∈ toDec n, c ≠ '.' :=
  fun c hc => isDigit_ne_dot (toDec_digits n c hc)

/-- Splitting a dotted-quad rendering recovers the four octet renderings. -/
theorem splitOnChar_ipToString (n : Nat) :
    splitOnChar '.' (ipToString n) =
      [toDec (n / 2 ^ 24 % 256), toDec (n / 2 ^ 16 % 256),
       toDec (n / 2 ^ 8 % 256), toDec (n % 256)] := by
  show splitOnChar '.'
      (toDec (n / 2 ^ 24 % 256) ++ '.' ::
        (toDec (n / 2 ^ 16 % 256) ++ '.' ::
          (toDec (n / 2 ^ 8 % 256) ++ '.' :: toDec (n % 256)))) = _
  rw [splitOnChar_append_sep _ _ _ (toDec_ne_dot _),
    splitOnChar_append_sep _ _ _ (toDec_ne_dot _),
    splitOnChar_append_sep _ _ _ (toDec_ne_dot _),
    splitOnChar_no_sep _ _ (toDec_ne_dot _)]

/-- Dotted-quad rendering is injective on 32-bit values. -/
theorem ipToString_inj {m n : Nat} (hm : m < 2 ^ 32) (hn : n < 2 ^ 32)
    (h : ipToString m = ipToString n) : m = n := by
  have h2 := congrArg (splitOnChar '.') h
  rw [splitOnChar_ipToString, splitOnChar_ipToString] at h2
  simp only [List.cons.injEq, and_true] at h2
  obtain ⟨e1, e2, e3, e4⟩ := h2
  have o1 := toDec_inj e1
  have o2 := toDec_inj e2
  have o3 := toDec_inj e3
  have o4 := toDec_inj e4
  have p24 : (2 : Nat) ^ 24 = 16777216 := by norm_num
  have p16 : (2 : Nat) ^ 16 = 65536 := by norm_num
  have p8 : (2 : Nat) ^ 8 = 256 := by norm_num
  have p32 : (2 : Nat) ^ 32 = 4294967296 := by norm_num
  rw [p24] at o1
  rw [p16] at o2
  rw [p8] at o3
  rw [p32] at hm hn
  omega

/-!
## Helper lemmas: parsing invariants
-/

theorem parseOctet_digits {cs : Str} {n : Nat} (h : parseOctet cs = some n) :
    ∀ c ∈ cs, c.isDigit = true := by
  unfold parseOctet at h
  split at h
  · exact absurd h (by simp)
  · split at h
    · exact absurd h (by simp)
    · intro c hc
      rename_i hall
      rw [not_not] at hall
      exact List.all_eq_true.mp hall c hc

theorem parseOctet_le {cs : Str} {n : Nat} (h : parseOctet cs = some n) :
    n ≤ 255 := by
  unfold parseOctet at h
  split at h
  · exact absurd h (by simp)
  · split at h
    · exact absurd h (by simp)
    · split at h
      · exact absurd h (by simp)
      · split at h
        · exact absurd h (by simp)
        · split at h
          · exact absurd h (by simp)
          · rename_i hv
            rw [Option.some.injEq] at h
            omega

theorem parseIPv4_lt {cs : Str} {n : Nat} (h : parseIPv4 cs = some n) :
    n < 2 ^ 32 := by
  unfold parseIPv4 at h
  split at h
  · rename_i p1 p2 p3 p4 _
    split at h
    · rename_i a b c d _ h1 h2 h3 h4
      rw [Option.some.injEq] at h
      have := parseOctet_le h1
      have := parseOctet_le h2
      have := parseOctet_le h3
      have := parseOctet_le h4
      omega
    · exact absurd h (by simp)
  · exact absurd h (by simp)

theorem parsePrefixLen_le {cs : Str} {p : Nat} (h : parsePrefixLen cs = some p) :
    p ≤ 32 := by
  unfold parsePrefixLen at h
  split at h
  · split at h
    · rename_i hle
      rw [Option.some.injEq] at h
      omega
    · exact absurd h (by simp)
  · exact absurd h (by simp)

theorem prefixFromIpInt_le {m p : Nat} (h : prefixFromIpInt m = some p) :
    p ≤ 32 := by
  unfold prefixFromIpInt at h
  have := List.mem_of_find?_eq_some h
  rw [List.mem_range] at this
  omega

theorem parseNetmaskStr_le {cs : Str} {p : Nat} (h : parseNetmaskStr cs = some p) :
    p ≤ 32 := by
  unfold parseNetmaskStr at h
  split at h
  · rename_i hp
    rw [Option.some.injEq] at h
    exact h ▸ parsePrefixLen_le hp
  · split at h
    · exact absurd h (by simp)
    · split at h
      · rename_i hq
        rw [Option.some.injEq] at h
        exact h ▸ prefixFromIpInt_le hq
      · exact prefixFromIpInt_le h

theorem parseNetwork_bounds {cs : Str} {a p : Nat}
    (h : parseNetwork cs = some (a, p)) : a < 2 ^ 32 ∧ p ≤ 32 := by
  unfold parseNetwork at h
  split at h
  · rename_i x _
    rw [Option.map_eq_some'] at h
    obtain ⟨n, hn, he⟩ := h
    rw [Prod.mk.injEq] at he
    obtain ⟨h1, h2⟩ := he
    subst h1
    subst h2
    exact ⟨parseIPv4_lt hn, by omega⟩
  · split at h
    · rename_i hn hm
      rw [Option.some.injEq, Prod.mk.injEq] at h
      obtain ⟨rfl, rfl⟩ := h
      exact ⟨parseIPv4_lt hn, parseNetmaskStr_le hm⟩
    · exact absurd h (by simp)
  · exact absurd h (by simp)

theorem parse3Octet_elim {s : Str} {a b c : Nat}
    (h : parse3Octet s = some (a, b, c)) :
    ∃ p1 p2 p3, splitOnChar '.' s = [p1, p2, p3] ∧
      parseOctet p1 = some a ∧ parseOctet p2 = some b ∧
      parseOctet p3 = some c := by
  unfold parse3Octet at h
  split at h
  · rename_i p1 p2 p3 hs
    split at h
    · rename_i x y z hx hy hz
      simp only [Option.some.injEq, Prod.mk.injEq] at h
      obtain ⟨rfl, rfl, rfl⟩ := h
      exact ⟨p1, p2, p3, hs, hx, hy, hz⟩
    · exact absurd h (by simp)
  · exact absurd h (by simp)

/-- The enumeration that `generate_sequential_ips` performs on a valid
3-octet prefix `a.b.c`: the 254 usable hosts of the derived /24, namely
`base+1 … base+254` for `base = a·2^24 + b·2^16 + c·2^8`, in order. -/
theorem gen_seq_eq {s : Str} {a b c : Nat}
    (h : parse3Octet s = some (a, b, c)) :
    generate_sequential_ips s =
      some ((List.range' (((a * 256 + b) * 256 + c) * 256 + 1) 254).map
        ipToString) := by
  obtain ⟨p1, p2, p3, hs, h1, h2, h3⟩ := parse3Octet_elim h
  have d1 : ∀ ch ∈ p1, ch.isDigit = true := parseOctet_digits h1
  have d2 : ∀ ch ∈ p2, ch.isDigit = true := parseOctet_digits h2
  have d3 : ∀ ch ∈ p3, ch.isDigit = true := parseOctet_digits h3
  have n1 : ∀ ch ∈ p1, ch ≠ '.' := fun ch hc => isDigit_ne_dot (d1 ch hc)
  have n2 : ∀ ch ∈ p2, ch ≠ '.' := fun ch hc => isDigit_ne_dot (d2 ch hc)
  have n3 : ∀ ch ∈ p3, ch ≠ '.' := fun ch hc => isDigit_ne_dot (d3 ch hc)
  have hrec : s = p1 ++ '.' :: (p2 ++ '.' :: p3) := by
    have hj := joinWith_splitOnChar '.' s
    rw [hs] at hj
    simpa [joinWith] using hj.symm
  have hstr : s ++ ".0/24".toList =
      (p1 ++ '.' :: (p2 ++ '.' :: (p3 ++ '.' :: ['0']))) ++ '/' :: ['2', '4'] := by
    rw [hrec]
    simp [List.append_assoc]
  have hA : ∀ ch ∈ p1 ++ '.' :: (p2 ++ '.' :: (p3 ++ '.' :: ['0'])), ch ≠ '/' := by
    intro ch hc
    simp only [List.mem_append, List.mem_cons, List.mem_singleton,
      List.not_mem_nil, or_false] at hc
    rcases hc with hc | rfl | hc | rfl | hc | rfl | rfl
    · exact isDigit_ne_slash (d1 ch hc)
    · decide
    · exact isDigit_ne_slash (d2 ch hc)
    · decide
    · exact isDigit_ne_slash (d3 ch hc)
    · decide
    · decide
  have hslash : splitOnChar '/' (s ++ ".0/24".toList) =
      [p1 ++ '.' :: (p2 ++ '.' :: (p3 ++ '.' :: ['0'])), ['2', '4']] := by
    rw [hstr, splitOnChar_append_sep _ _ _ hA,
      splitOnChar_no_sep _ _ (by decide)]
  have hdot : splitOnChar '.' (p1 ++ '.' :: (p2 ++ '.' :: (p3 ++ '.' :: ['0']))) =
      [p1, p2, p3, ['0']] := by
    rw [splitOnChar_append_sep _ _ _ n1, splitOnChar_append_sep _ _ _ n2,
      splitOnChar_append_sep _ _ _ n3, splitOnChar_no_sep _ _ (by decide)]
  have hipv4 : parseIPv4 (p1 ++ '.' :: (p2 ++ '.' :: (p3 ++ '.' :: ['0']))) =
      some (((a * 256 + b) * 256 + c) * 256) := by
    unfold parseIPv4
    rw [hdot]
    have h0 : parseOctet ['0'] = some 0 := by decide
    simp only [h1, h2, h3, h0, Nat.add_zero]
  have hm24 : parseNetmaskStr ['2', '4'] = some 24 := by decide
  have hnw : parseNetwork (s ++ ".0/24".toList) =
      some (((a * 256 + b) * 256 + c) * 256, 24) := by
    unfold parseNetwork
    rw [hslash]
    simp only [hipv4, hm24]
  have hhosts : ipHosts (((a * 256 + b) * 256 + c) * 256) 24 =
      List.range' (((a * 256 + b) * 256 + c) * 256 + 1) 254 := by
    unfold ipHosts networkOf
    rw [if_neg (by norm_num), if_neg (by norm_num)]
    have e8 : (32 : Nat) - 24 = 8 := by norm_num
    rw [e8]
    have hdiv : ((a * 256 + b) * 256 + c) * 256 / 2 ^ 8 * 2 ^ 8 =
        ((a * 256 + b) * 256 + c) * 256 := by
      have e256 : (2 : Nat) ^ 8 = 256 := by norm_num
      rw [e256, Nat.mul_div_cancel _ (by norm_num : (0 : Nat) < 256)]
    rw [hdiv]
    norm_num
  unfold generate_sequential_ips
  rw [hnw, Option.map_some', hhosts]

/-!
## Helper lemmas: host enumeration
-/

theorem networkOf_le (a p : Nat) : networkOf a p ≤ a :=
  Nat.div_mul_le_self a _

theorem broadcastOf_lt (a p : Nat) (ha : a < 2 ^ 32) (hp : p ≤ 32) :
    broadcastOf a p < 2 ^ 32 := by
  unfold broadcastOf networkOf
  set e := 2 ^ (32 - p) with he
  have hpos : 0 < e := Nat.pos_pow_of_pos _ (by omega)
  have hsplit : 2 ^ 32 = 2 ^ p * e := by
    rw [he, ← pow_add]
    congr 1
    omega
  have hdiv : a / e < 2 ^ p := by
    rw [Nat.div_lt_iff_lt_mul hpos]
    calc a < 2 ^ 32 := ha
    _ = 2 ^ p * e := hsplit
  calc a / e * e + (e - 1) < a / e * e + e := by omega
    _ = (a / e + 1) * e := by ring
    _ ≤ 2 ^ p * e := Nat.mul_le_mul_right _ (by omega)
    _ = 2 ^ 32 := hsplit.symm

theorem ipHosts_length (a p : Nat) (hp : p ≤ 32) :
    (ipHosts a p).length =
      if p ≤ 30 then 2 ^ (32 - p) - 2 else if p = 31 then 2 else 1 := by
  unfold ipHosts
  rcases Nat.lt_or_ge p 31 with hlt | hge
  · rw [if_neg (by omega), if_neg (by omega), if_pos (by omega)]
    exact List.length_range' _ _ _
  · rcases Nat.eq_or_lt_of_le hge with h31 | h32
    · rw [if_neg (by omega), if_pos h31.symm, if_neg (by omega), if_pos h31.symm]
      rfl
    · have : p = 32 := by omega
      subst this
      simp

theorem ipHosts_pairwise (a p : Nat) :
    (ipHosts a p).Pairwise (· < ·) := by
  unfold ipHosts
  split
  · simp
  · split
    · simp
    · exact List.pairwise_lt_range' _ _ 1 (by simp)

theorem ipHosts_mem_bounds (a p : Nat) (hp : p ≤ 32) {h : Nat}
    (hm : h ∈ ipHosts a p) :
    networkOf a p ≤ h ∧ h ≤ broadcastOf a p := by
  unfold ipHosts at hm
  unfold broadcastOf
  split at hm
  · rename_i h32
    subst h32
    simp only [List.mem_singleton] at hm
    subst hm
    norm_num
  · split at hm
    · rename_i h31
      subst h31
      have h2 : (2 : Nat) ^ (32 - 31) = 2 := by norm_num
      simp only [List.mem_cons, List.not_mem_nil, or_false] at hm
      rcases hm with heq | heq <;> rw [heq] <;> omega
    · rename_i h32 h31
      rw [List.mem_range'_1] at hm
      have he : 2 ≤ 2 ^ (32 - p) := by
        have h1 : (2 : Nat) ^ 1 ≤ 2 ^ (32 - p) :=
          Nat.pow_le_pow_right (by omega) (by omega)
        simpa using h1
      omega

/-!
## Helper lemmas: the file reader and the output file
-/

theorem read_ips_fold_eq (lines : List Str) (acc : List Str) :
    lines.foldl
      (fun all_ips line =>
        let entry := pyStrip line
        if entry = [] then all_ips
        else if entry.contains '/' then
          match expand_cidr_range entry with
          | some ips => all_ips ++ ips
          | none => all_ips
        else
          match parseIPv4 entry with
          | some _ => all_ips ++ [entry]
          | none => all_ips)
      acc = acc ++ lines.flatMap lineContribution := by
  induction lines generalizing acc with
  | nil => simp
  | cons l ls ih =>
    rw [List.foldl_cons, List.flatMap_cons, ih]
    have hstep :
        (let entry := pyStrip l
          if entry = [] then acc
          else if entry.contains '/' then
            match expand_cidr_range entry with
            | some ips => acc ++ ips
            | none => acc
          else
            match parseIPv4 entry with
            | some _ => acc ++ [entry]
            | none => acc) = acc ++ lineContribution l := by
      unfold lineContribution
      dsimp only
      split
      · simp
      · split
        · split <;> simp
        · split <;> simp
    rw [hstep, List.append_assoc]

/-- `read_ips_and_ranges_from_file` is the in-order concatenation of the
per-line contributions. -/
theorem read_ips_eq_flatMap (lines : List Str) :
    read_ips_and_ranges_from_file lines = lines.flatMap lineContribution := by
  unfold read_ips_and_ranges_from_file
  rw [read_ips_fold_eq]
  simp

theorem splitOnChar_joinWith (results : List Str) (hne : results ≠ [])
    (hnl : ∀ r ∈ results, ∀ c ∈ r, c ≠ '\n') :
    splitOnChar '\n' (joinWith '\n' results) = results := by
  induction results with
  | nil => exact absurd rfl hne
  | cons x rest ih =>
    match rest with
    | [] =>
      show splitOnChar '\n' x = [x]
      exact splitOnChar_no_sep _ _ (hnl x (by simp))
    | y :: rest' =>
      show splitOnChar '\n' (x ++ '\n' :: joinWith '\n' (y :: rest')) = _
      rw [splitOnChar_append_sep _ _ _ (hnl x (by simp)),
        ih (by simp) (fun r hr => hnl r (by simp [hr]))]

/-- The lines of the written output file are the header followed by the
result lines, provided each result is a single line. -/
theorem fileLines_outputContent (results : List Str) (hne : results ≠ [])
    (hnl : ∀ r ∈ results, ∀ c ∈ r, c ≠ '\n') :
    fileLines (outputContent results) = headerLine :: results := by
  unfold fileLines outputContent
  rw [splitOnChar_append_sep _ _ _ (by decide),
    splitOnChar_joinWith results hne hnl]

/-!
## Helper lemmas: the worker pool invariant
-/

theorem beq_running_running : (JobState.running == JobState.running) = true := rfl

theorem beq_pending_running : (JobState.pending == JobState.running) = false := rfl

theorem beq_done_running : (JobState.done == JobState.running) = false := rfl

theorem runningCount_set_running (s : List JobState) (i : Nat) :
    runningCount (s.set i .running) ≤ runningCount s + 1 := by
  induction s generalizing i with
  | nil => simp [runningCount]
  | cons j js ih =>
    match i with
    | 0 =>
      cases j <;>
        simp [runningCount, List.countP_cons, beq_running_running,
          beq_pending_running, beq_done_running]
    | k + 1 =>
      simp only [List.set_cons_succ, runningCount, List.countP_cons]
      have := ih k
      unfold runningCount at this
      omega

theorem runningCount_set_done (s : List JobState) (i : Nat) :
    runningCount (s.set i .done) ≤ runningCount s := by
  induction s generalizing i with
  | nil => simp [runningCount]
  | cons j js ih =>
    match i with
    | 0 =>
      cases j <;>
        simp [runningCount, List.countP_cons, beq_running_running,
          beq_pending_running, beq_done_running]
    | k + 1 =>
      simp only [List.set_cons_succ, runningCount, List.countP_cons]
      have := ih k
      unfold runningCount at this
      omega

theorem runningCount_replicate_pending (n : Nat) :
    runningCount (List.replicate n .pending) = 0 := by
  induction n with
  | zero => rfl
  | succ k ih =>
    unfold runningCount at ih ⊢
    rw [List.replicate_succ, List.countP_cons, ih]
    decide

/-!
## Pipeline helper lemmas
-/

/-- `mrvdns_main` on a non-empty collected list: one lookup per address, in
submission order, and the optional file is produced from the full result
list. -/
theorem mrvdns_main_eq_completed (args : MainArgs)
    (nslookup : Str → Str → SubprocResult) {ips : List Str}
    (h : collect_ip_list args = .ok ips) (hne : ips ≠ []) :
    mrvdns_main args nslookup =
      .completed (ips.map (fun ip => reverse_dns_lookup ip args.dns nslookup))
        (args.output.map (fun _ =>
          outputContent
            (ips.map (fun ip => reverse_dns_lookup ip args.dns nslookup)))) := by
  unfold mrvdns_main
  rw [h]
  match ips, hne with
  | _ :: _, _ => rfl

/-!
## Claim theorems
-/

/-- C10: `generate_sequential_ips(s)` returns exactly the same address list
as `expand_cidr_range(s + ".0/24")` for every string `s` — subnet mode is
definitionally the /24 special case of CIDR mode; both succeed with equal
results or both fail (the two sides are the same `Option` value). -/
theorem claim_C10_subnet_is_cidr24 (s : Str) :
    generate_sequential_ips s = expand_cidr_range (s ++ ".0/24".toList) := rfl

/-- C2: a single lookup returns exactly one of four outcomes in the spec's
priority order — a `"name ="` line yields the resolved name, a completed
query without one yields `No PTR Record Found`, a timeout yields `Timeout`,
any other failure yields `Error: <description>` — and the lookup is a total
function of the subprocess outcome, so no exception reaches the caller. -/
theorem claim_C2_lookup_outcomes (ip dns : Str)
    (nslookup : Str → Str → SubprocResult) :
    reverse_dns_lookup ip dns nslookup =
      renderOutcome ip (spec_lookup_outcome (nslookup ip dns))
    ∧ (∀ out line, nslookup ip dns = .completed out →
        (pySplitlines out).find? (fun l => containsSub nameMarker l) =
          some line →
        reverse_dns_lookup ip dns nslookup =
          ip ++ '\t' :: pyStrip ((pySplit nameMarker line).getLastD []))
    ∧ (∀ out, nslookup ip dns = .completed out →
        (∀ l ∈ pySplitlines out, containsSub nameMarker l = false) →
        reverse_dns_lookup ip dns nslookup = ip ++ '\t' :: noPtrMsg)
    ∧ (nslookup ip dns = .timedOut →
        reverse_dns_lookup ip dns nslookup = ip ++ '\t' :: "Timeout".toList)
    ∧ (∀ msg, nslookup ip dns = .raised msg →
        reverse_dns_lookup ip dns nslookup =
          ip ++ '\t' :: ("Error: ".toList ++ msg)) := by
  refine ⟨?_, ?_, ?_, ?_, ?_⟩
  · unfold reverse_dns_lookup spec_lookup_outcome
    cases hr : nslookup ip dns with
    | completed out =>
      dsimp only
      generalize (pySplitlines out).find? (fun line => containsSub nameMarker line) = res
      cases res with
      | none => rfl
      | some line => rfl
    | timedOut => rfl
    | raised msg => rfl
  · intro out line hr hf
    unfold reverse_dns_lookup
    rw [hr]
    dsimp only
    rw [hf]
  · intro out hr hno
    have hf : (pySplitlines out).find? (fun line => containsSub nameMarker line) =
        none := by
      rw [List.find?_eq_none]
      intro l hl
      simp [hno l hl]
    unfold reverse_dns_lookup
    rw [hr]
    dsimp only
    rw [hf]
  · intro hr
    unfold reverse_dns_lookup
    rw [hr]
  · intro msg hr
    unfold reverse_dns_lookup
    rw [hr]

theorem claim_C2_witness :
    ((fun _ _ => SubprocResult.completed
        "4.3.2.1.in-addr.arpa\tname = host.example.com.\n".toList :
      Str → Str → SubprocResult) ("1.2.3.4".toList) ("8.8.8.8".toList) =
      SubprocResult.completed
        "4.3.2.1.in-addr.arpa\tname = host.example.com.\n".toList)
    ∧ reverse_dns_lookup ("1.2.3.4".toList) ("8.8.8.8".toList)
        (fun _ _ => SubprocResult.completed
          "4.3.2.1.in-addr.arpa\tname = host.example.com.\n".toList) =
      renderOutcome ("1.2.3.4".toList)
        (spec_lookup_outcome
          (SubprocResult.completed
            "4.3.2.1.in-addr.arpa\tname = host.example.com.\n".toList))
    ∧ reverse_dns_lookup ("1.2.3.4".toList) ("8.8.8.8".toList)
        (fun _ _ => SubprocResult.timedOut) =
      "1.2.3.4".toList ++ '\t' :: "Timeout".toList :=
  ⟨rfl,
    (claim_C2_lookup_outcomes ("1.2.3.4".toList) ("8.8.8.8".toList)
      (fun _ _ => SubprocResult.completed
        "4.3.2.1.in-addr.arpa\tname = host.example.com.\n".toList)).1,
    (claim_C2_lookup_outcomes ("1.2.3.4".toList) ("8.8.8.8".toList)
      (fun _ _ => SubprocResult.timedOut)).2.2.2.1 rfl⟩

/-- C9: in `mroute.run_command`, a non-zero exit of the invoked command is
fatal — the command's stripped error output is printed and the process exits
with status 1 (non-zero) — while a zero exit returns the stripped stdout. -/
theorem claim_C9_run_command (r : CmdResult) :
    (r.returncode = 0 → run_command r = .ok (pyStrip r.stdout))
    ∧ (r.returncode ≠ 0 →
        run_command r = .fatalExit (pyStrip r.stderr) 1 ∧ (1 : Nat) ≠ 0) := by
  unfold run_command
  constructor
  · intro h
    rw [if_pos h]
  · intro h
    rw [if_neg h]
    exact ⟨rfl, by decide⟩

theorem claim_C9_witness :
    run_command { returncode := 0, stdout := " ok ".toList, stderr := "e".toList } =
      .ok (pyStrip " ok ".toList)
    ∧ (run_command { returncode := 2, stdout := "o".toList, stderr := " boom ".toList } =
        .fatalExit (pyStrip " boom ".toList) 1 ∧ (1 : Nat) ≠ 0) :=
  ⟨(claim_C9_run_command _).1 rfl, (claim_C9_run_command _).2 (by decide)⟩

/-- C3: in a pool of size `K`, every reachable scheduling state has at most
`K` lookups concurrently outstanding: a job may only start while fewer than
`K` are running, so `runningCount ≤ K` is an invariant of `PoolReachable`. -/
theorem claim_C3_pool_bound (K n : Nat) (s : List JobState)
    (h : PoolReachable K n s) : runningCount s ≤ K := by
  unfold PoolReachable at h
  induction h with
  | refl => rw [runningCount_replicate_pending]; omega
  | tail hab hbc ih =>
    rename_i b c
    cases hbc with
    | start i hp hK =>
      have hs := runningCount_set_running b i
      omega
    | finish i hr =>
      have hs := runningCount_set_done b i
      omega

theorem claim_C3_witness :
    PoolReachable 2 3 ((List.replicate 3 JobState.pending).set 0 .running)
    ∧ runningCount ((List.replicate 3 JobState.pending).set 0 .running) ≤ 2 :=
  ⟨Relation.ReflTransGen.single
      (PoolStep.start _ 0 (by decide) (by decide)),
    claim_C3_pool_bound 2 3 _
      (Relation.ReflTransGen.single
        (PoolStep.start _ 0 (by decide) (by decide)))⟩

/-- C1: for every non-empty collected address list, `mrvdns_main` produces
exactly one Lookup Result per input address — duplicates included, in
submission order, none dropped — and the optional file output is computed
from the complete result list only after all lookups are done, so exactly
`N` results are present for `N` submitted addresses. -/
theorem claim_C1_one_result_per_address (args : MainArgs)
    (nslookup : Str → Str → SubprocResult) (ips : List Str)
    (h : collect_ip_list args = .ok ips) (hne : ips ≠ []) :
    mrvdns_main args nslookup =
      .completed (ips.map (fun ip => reverse_dns_lookup ip args.dns nslookup))
        (args.output.map (fun _ =>
          outputContent
            (ips.map (fun ip => reverse_dns_lookup ip args.dns nslookup))))
    ∧ (ips.map (fun ip => reverse_dns_lookup ip args.dns nslookup)).length =
        ips.length
    ∧ ∀ i : Nat,
        (ips.map (fun ip => reverse_dns_lookup ip args.dns nslookup))[i]? =
          (ips[i]?).map (fun ip => reverse_dns_lookup ip args.dns nslookup) := by
  refine ⟨mrvdns_main_eq_completed args nslookup h hne, by simp, ?_⟩
  intro i
  simp

/-- Concrete run for the C1 witness: a `/30` CIDR argument and a resolver
that always times out. -/
def c1Args : MainArgs :=
  { subnet := none, cidr := some ("192.0.2.0/30".toList), file := none,
    dns := "9.9.9.9".toList, output := none, threads := 10 }

/-- The C1 witness resolver: every lookup times out. -/
def c1Nsl : Str → Str → SubprocResult := fun _ _ => .timedOut

/-- The address list the C1 witness run enumerates. -/
def c1Ips : List Str := ["192.0.2.1".toList, "192.0.2.2".toList]

theorem claim_C1_witness :
    collect_ip_list c1Args = Except.ok c1Ips
    ∧ c1Ips ≠ []
    ∧ (mrvdns_main c1Args c1Nsl =
        .completed (c1Ips.map (fun ip => reverse_dns_lookup ip c1Args.dns c1Nsl))
          (c1Args.output.map (fun _ =>
            outputContent
              (c1Ips.map (fun ip => reverse_dns_lookup ip c1Args.dns c1Nsl))))
      ∧ (c1Ips.map (fun ip => reverse_dns_lookup ip c1Args.dns c1Nsl)).length =
          c1Ips.length
      ∧ ∀ i : Nat,
          (c1Ips.map (fun ip => reverse_dns_lookup ip c1Args.dns c1Nsl))[i]? =
            (c1Ips[i]?).map (fun ip => reverse_dns_lookup ip c1Args.dns c1Nsl)) :=
  ⟨rfl, by decide, claim_C1_one_result_per_address c1Args c1Nsl c1Ips rfl (by decide)⟩

/-- Concrete run for C8: no `-s`/`-r`/`-f` source at all, an output path
configured, resolver irrelevant. -/
def c8Args : MainArgs :=
  { subnet := none, cidr := none, file := none,
    dns := "8.8.8.8".toList, output := some ("out.txt".toList), threads := 10 }

/-- The C8 resolver stub (never reached). -/
def c8Nsl : Str → Str → SubprocResult := fun _ _ => .timedOut

/-- C8 counterexample: with an empty combined address list the run does print
the usage message and stop before the worker pool, but it terminates by a
plain `return` from `main`, i.e. with exit status 0 — not with the non-zero
"exit code" of an abort that the claim (quoting spec §4.1) asserts.  The
claim "aborts the run with a usage message and exit code" is therefore false
on this input under its abort reading. -/
theorem claim_C8_counterexample :
    ¬ (mrvdns_main c8Args c8Nsl = MainOutcome.usage →
        exitStatus (mrvdns_main c8Args c8Nsl) ≠ 0) := by
  intro h
  exact h rfl rfl

/-- C8 (amended): if the combined address list is empty — including when no
source is supplied — the run prints the usage message and returns normally
(exit status 0, unchanged per spec §6): no lookup is attempted, no output
file is written, and the worker pool stage is never entered. -/
theorem claim_C8_amended_empty_list (args : MainArgs)
    (nslookup : Str → Str → SubprocResult)
    (h : collect_ip_list args = .ok []) :
    mrvdns_main args nslookup = .usage
    ∧ exitStatus (mrvdns_main args nslookup) = 0
    ∧ lookupCount (mrvdns_main args nslookup) = 0
    ∧ writtenFile (mrvdns_main args nslookup) = none := by
  unfold mrvdns_main
  rw [h]
  exact ⟨rfl, rfl, rfl, rfl⟩

theorem claim_C8_witness :
    collect_ip_list c8Args = Except.ok []
    ∧ (mrvdns_main c8Args c8Nsl = .usage
      ∧ exitStatus (mrvdns_main c8Args c8Nsl) = 0
      ∧ lookupCount (mrvdns_main c8Args c8Nsl) = 0
      ∧ writtenFile (mrvdns_main c8Args c8Nsl) = none) :=
  ⟨rfl, claim_C8_amended_empty_list c8Args c8Nsl rfl⟩

/-- C6: file mode processes lines in order — blank lines are skipped, a line
containing the prefix separator `'/'` is expanded as a CIDR block, any other
line is validated as a single address and kept, and invalid lines are skipped
without aborting — so the output is the in-order concatenation of per-line
contributions; in particular a file with `192.0.2.5`, a blank line,
`not-an-ip` and `192.0.2.0/30` yields exactly
`192.0.2.5, 192.0.2.1, 192.0.2.2`. -/
theorem claim_C6_file_mode :
    (∀ lines : List Str,
        read_ips_and_ranges_from_file lines = lines.flatMap lineContribution)
    ∧ read_ips_and_ranges_from_file
        ["192.0.2.5".toList, " ".toList, "not-an-ip".toList,
          "192.0.2.0/30".toList] =
      ["192.0.2.5".toList, "192.0.2.1".toList, "192.0.2.2".toList] :=
  ⟨read_ips_eq_flatMap, by decide⟩

/-- C4 counterexample: on the valid CIDR input `10.0.0.0/31` the enumerator
yields 2 addresses (CPython `hosts()` returns both addresses of a /31), while
the claim's `usable_host_count(31) = 2^1 - 2 = 0`, so the claimed count is
wrong for this input. -/
theorem claim_C4_counterexample :
    (expand_cidr_range ("10.0.0.0/31".toList)).map List.length = some 2
    ∧ usableHostCount 31 = 0
    ∧ ¬ (expand_cidr_range ("10.0.0.0/31".toList)).map List.length =
        some (usableHostCount 31) := by
  decide

/-- C4 (amended): for every CIDR input that parses as a network with address
`a` and prefix `p`, the enumerator yields exactly `usable_host_count(p)`
addresses when `p ≤ 30`, but 2 addresses for a /31 and 1 address for a /32;
the yielded addresses are in strictly ascending numeric order and all lie
within the block; an input that cannot be parsed fails with an error. -/
theorem claim_C4_amended_cidr (s : Str) :
    (∀ a p, parseNetwork s = some (a, p) →
      expand_cidr_range s = some ((ipHosts a p).map ipToString)
      ∧ (ipHosts a p).length =
          (if p ≤ 30 then usableHostCount p else if p = 31 then 2 else 1)
      ∧ (ipHosts a p).Pairwise (· < ·)
      ∧ ∀ h ∈ ipHosts a p, networkOf a p ≤ h ∧ h ≤ broadcastOf a p)
    ∧ (parseNetwork s = none → expand_cidr_range s = none) := by
  constructor
  · intro a p hp
    obtain ⟨ha, hple⟩ := parseNetwork_bounds hp
    refine ⟨?_, ?_, ipHosts_pairwise a p,
      fun h hm => ipHosts_mem_bounds a p hple hm⟩
    · unfold expand_cidr_range
      rw [hp, Option.map_some']
    · rw [ipHosts_length a p hple]
      rfl
  · intro hn
    unfold expand_cidr_range
    rw [hn]
    rfl

theorem claim_C4_witness :
    parseNetwork ("10.0.0.0/30".toList) = some (167772160, 30)
    ∧ (expand_cidr_range ("10.0.0.0/30".toList) =
        some ((ipHosts 167772160 30).map ipToString)
      ∧ (ipHosts 167772160 30).length =
          (if 30 ≤ 30 then usableHostCount 30 else if 30 = 31 then 2 else 1)
      ∧ (ipHosts 167772160 30).Pairwise (· < ·)
      ∧ ∀ h ∈ ipHosts 167772160 30,
          networkOf 167772160 30 ≤ h ∧ h ≤ broadcastOf 167772160 30)
    ∧ parseNetwork ("zzz".toList) = none
    ∧ expand_cidr_range ("zzz".toList) = none :=
  ⟨rfl, (claim_C4_amended_cidr ("10.0.0.0/30".toList)).1 167772160 30 rfl,
    rfl, (claim_C4_amended_cidr ("zzz".toList)).2 rfl⟩

/-- C5: for every valid 3-octet subnet prefix `a.b.c`, sequential-subnet
enumeration yields exactly the 254 usable hosts of the derived /24 —
`base+1 … base+254` for `base = a·2^24 + b·2^16 + c·2^8` — in ascending
numeric order, with neither the network address `base` nor the broadcast
address `base+255` among them. -/
theorem claim_C5_sequential_subnet (s : Str) (a b c : Nat)
    (h : parse3Octet s = some (a, b, c)) :
    generate_sequential_ips s =
      some ((List.range' (((a * 256 + b) * 256 + c) * 256 + 1) 254).map
        ipToString)
    ∧ ((List.range' (((a * 256 + b) * 256 + c) * 256 + 1) 254).map
        ipToString).length = 254
    ∧ (List.range' (((a * 256 + b) * 256 + c) * 256 + 1) 254).Pairwise (· < ·)
    ∧ ipToString (((a * 256 + b) * 256 + c) * 256) ∉
        (List.range' (((a * 256 + b) * 256 + c) * 256 + 1) 254).map ipToString
    ∧ ipToString (((a * 256 + b) * 256 + c) * 256 + 255) ∉
        (List.range' (((a * 256 + b) * 256 + c) * 256 + 1) 254).map
          ipToString := by
  obtain ⟨p1, p2, p3, hs, h1, h2, h3⟩ := parse3Octet_elim h
  have hb1 := parseOctet_le h1
  have hb2 := parseOctet_le h2
  have hb3 := parseOctet_le h3
  have hbase : ((a * 256 + b) * 256 + c) * 256 + 255 < 2 ^ 32 := by
    have : (2 : Nat) ^ 32 = 4294967296 := by norm_num
    omega
  refine ⟨gen_seq_eq h, by simp, List.pairwise_lt_range' _ _ 1 (by simp),
    ?_, ?_⟩
  · intro hmem
    rw [List.mem_map] at hmem
    obtain ⟨id, hid, heq⟩ := hmem
    rw [List.mem_range'_1] at hid
    have : id = ((a * 256 + b) * 256 + c) * 256 :=
      ipToString_inj (by omega) (by omega) heq
    omega
  · intro hmem
    rw [List.mem_map] at hmem
    obtain ⟨id, hid, heq⟩ := hmem
    rw [List.mem_range'_1] at hid
    have : id = ((a * 256 + b) * 256 + c) * 256 + 255 :=
      ipToString_inj (by omega) (by omega) heq
    omega

theorem claim_C5_witness :
    parse3Octet ("10.0.0".toList) = some (10, 0, 0)
    ∧ (generate_sequential_ips ("10.0.0".toList) =
        some ((List.range' (((10 * 256 + 0) * 256 + 0) * 256 + 1) 254).map
          ipToString)
      ∧ ((List.range' (((10 * 256 + 0) * 256 + 0) * 256 + 1) 254).map
          ipToString).length = 254
      ∧ (List.range' (((10 * 256 + 0) * 256 + 0) * 256 + 1) 254).Pairwise
          (· < ·)
      ∧ ipToString (((10 * 256 + 0) * 256 + 0) * 256) ∉
          (List.range' (((10 * 256 + 0) * 256 + 0) * 256 + 1) 254).map
            ipToString
      ∧ ipToString (((10 * 256 + 0) * 256 + 0) * 256 + 255) ∉
          (List.range' (((10 * 256 + 0) * 256 + 0) * 256 + 1) 254).map
            ipToString) :=
  ⟨rfl, claim_C5_sequential_subnet ("10.0.0".toList) 10 0 0 rfl⟩

theorem ipToString_chars (n : Nat) :
    ∀ ch ∈ ipToString n, ch.isDigit = true ∨ ch = '.' := by
  intro ch hc
  have hc' : ch ∈ toDec (n / 2 ^ 24 % 256) ++ '.' ::
      (toDec (n / 2 ^ 16 % 256) ++ '.' ::
        (toDec (n / 2 ^ 8 % 256) ++ '.' :: toDec (n % 256))) := hc
  simp only [List.mem_append, List.mem_cons] at hc'
  rcases hc' with h | rfl | h | rfl | h | rfl | h
  · exact Or.inl (toDec_digits _ ch h)
  · exact Or.inr rfl
  · exact Or.inl (toDec_digits _ ch h)
  · exact Or.inr rfl
  · exact Or.inl (toDec_digits _ ch h)
  · exact Or.inr rfl
  · exact Or.inl (toDec_digits _ ch h)

/-- Concrete run for C7: `--subnet 10.0.0` with an output path and two
workers, against a resolver that always returns no record. -/
def c7Args : MainArgs :=
  { subnet := some ("10.0.0".toList), cidr := none, file := none,
    dns := "8.8.8.8".toList, output := some ("results.txt".toList),
    threads := 2 }

/-- C7: when an output path is configured the file content consists of the
literal header line `IP Address\tReverse DNS Name` followed by exactly one
tab-separated line per Lookup Result (so `N` results give `N + 1` lines);
for the `/24` run of `c7Args` against a resolver that always returns no
record, the file lines are the header followed by 254 lines
`10.0.0.<n>\tNo PTR Record Found` — 255 lines total. -/
theorem claim_C7_output_file :
    (∀ results : List Str, results ≠ [] →
      (∀ r ∈ results, ∀ ch ∈ r, ch ≠ '\n') →
      fileLines (outputContent results) = headerLine :: results
      ∧ (fileLines (outputContent results)).length = results.length + 1)
    ∧ ∀ nsl : Str → Str → SubprocResult,
        (∀ ip dns, nsl ip dns = .completed []) →
        mrvdns_main c7Args nsl =
          .completed
            ((List.range' 167772161 254).map
              (fun id => ipToString id ++ '\t' :: noPtrMsg))
            (some (outputContent ((List.range' 167772161 254).map
              (fun id => ipToString id ++ '\t' :: noPtrMsg))))
        ∧ fileLines (outputContent ((List.range' 167772161 254).map
              (fun id => ipToString id ++ '\t' :: noPtrMsg))) =
            headerLine :: (List.range' 167772161 254).map
              (fun id => ipToString id ++ '\t' :: noPtrMsg)
        ∧ (fileLines (outputContent ((List.range' 167772161 254).map
              (fun id => ipToString id ++ '\t' :: noPtrMsg)))).length = 255 := by
  constructor
  · intro results hne hnl
    have hl := fileLines_outputContent results hne hnl
    refine ⟨hl, ?_⟩
    rw [hl]
    simp
  · intro nsl hn
    have hgen : generate_sequential_ips ("10.0.0".toList) =
        some ((List.range' 167772161 254).map ipToString) := by
      have hg := gen_seq_eq
        (show parse3Octet ("10.0.0".toList) = some (10, 0, 0) from rfl)
      norm_num at hg
      exact hg
    have hcol : collect_ip_list c7Args =
        Except.ok ((List.range' 167772161 254).map ipToString) := by
      unfold collect_ip_list c7Args
      dsimp only
      rw [hgen]
      simp [pure, Except.pure, Bind.bind, Except.bind]
    have hlk : ∀ ip : Str,
        reverse_dns_lookup ip c7Args.dns nsl = ip ++ '\t' :: noPtrMsg := by
      intro ip
      unfold reverse_dns_lookup
      rw [hn ip c7Args.dns]
      rfl
    have hne : ((List.range' 167772161 254).map ipToString) ≠ [] := by simp
    have hmain := mrvdns_main_eq_completed c7Args nsl hcol hne
    have hres : ((List.range' 167772161 254).map ipToString).map
        (fun ip => reverse_dns_lookup ip c7Args.dns nsl) =
        (List.range' 167772161 254).map
          (fun id => ipToString id ++ '\t' :: noPtrMsg) := by
      rw [List.map_map]
      simp [Function.comp, hlk]
    rw [hres] at hmain
    have hnl : ∀ r ∈ (List.range' 167772161 254).map
        (fun id => ipToString id ++ '\t' :: noPtrMsg),
        ∀ ch ∈ r, ch ≠ '\n' := by
      intro r hr ch hc
      rw [List.mem_map] at hr
      obtain ⟨id, _, rfl⟩ := hr
      rw [List.mem_append, List.mem_cons] at hc
      rcases hc with hc | rfl | hc
      · rcases ipToString_chars id ch hc with hd | rfl
        · exact isDigit_ne_newline hd
        · decide
      · decide
      · exact (by decide : ∀ ch ∈ noPtrMsg, ch ≠ '\n') ch hc
    have hfl := fileLines_outputContent _ (by simp) hnl
    refine ⟨hmain, hfl, ?_⟩
    rw [hfl]
    simp

theorem claim_C7_witness :
    fileLines (outputContent ["ok".toList]) = headerLine :: ["ok".toList]
    ∧ (fileLines (outputContent ((List.range' 167772161 254).map
        (fun id => ipToString id ++ '\t' :: noPtrMsg)))).length = 255 :=
  ⟨(claim_C7_output_file.1 ["ok".toList] (by decide) (by decide)).1,
    (claim_C7_output_file.2 (fun _ _ => SubprocResult.completed [])
      (fun _ _ => rfl)).2.2⟩
